import Mathlib

/-!
Verification of the block/field simulation core of a terminal falling-block
game (single C++ source file).  The embedding below translates the data
model and the operations of the source:

* `Color` — the cell color enumeration (`BLACK` is the empty cell).
* the seven shape records `BlockShape0` .. `BlockShape6` — width, height,
  occupancy mask and color; modelled by the tables `shapeW`, `shapeH`,
  `shapeMask`, `shapeCOL` indexed by `Fin 7`.
* `Block` — anchor position (`x`, `y` as mathematical integers; all values
  arising in the game are far from 32-bit overflow), rotation state
  (`Fin 4`, one step of `rotate` is `(r + 1) % 4`), and a shape id.
* `BlockMap` — the occupancy grid.  The source stores a flat row-major
  vector with `get(x, y) = m_blocks[y * m_w + x]`; the model keeps the same
  grid as its list of rows (`rows.getD y` is row `y`, `(rows.getD y).getD x`
  is `get(x, y)`).
* `isPuttable`, `putBlock`, `eraseFilledLines`, `TryBlockAction` and the
  gravity-tick portion of `TetrisApp::run` are translated loop by loop.

Reading the shape mask outside its index range is undefined behaviour in
the source (`SHAPE[y][x]` past the array); the model makes the partiality
explicit: `Block.existQ` returns `none` exactly when the source would read
out of bounds, and `Block.exist` is the `getD false` totalisation used
where the source's reads are in bounds.
-/

/-- Cell colors of the source `enum class Color`; `BLACK = 0` is the empty
cell (`BlockMap::exist` is `static_cast<bool>(get(x, y))`). -/
inductive Color where
  | BLACK
  | RED
  | GREEN
  | ORANGE
  | BLUE
  | PURPLE
  | LIGHT_BLUE
  | WHITE
deriving DecidableEq, Repr

/-- Widths `Shape::W` of the seven shape records `BlockShape0..6`. -/
def shapeW (s : Fin 7) : Nat :=
  match s.val with
  | 0 => 4
  | 1 => 3
  | 2 => 3
  | 3 => 2
  | 4 => 3
  | 5 => 3
  | _ => 3

/-- Heights `Shape::H` of the seven shape records `BlockShape0..6`. -/
def shapeH (s : Fin 7) : Nat :=
  match s.val with
  | 0 => 4
  | 1 => 3
  | 2 => 3
  | 3 => 2
  | 4 => 3
  | 5 => 3
  | _ => 3

/-- Occupancy masks `Shape::SHAPE` of the seven shape records (`1` ↦
`true`, `0` ↦ `false`, row-major as written in the source). -/
def shapeMask (s : Fin 7) : List (List Bool) :=
  match s.val with
  | 0 => [[false, false, false, false],
          [true, true, true, true],
          [false, false, false, false],
          [false, false, false, false]]
  | 1 => [[true, false, false],
          [true, true, true],
          [false, false, false]]
  | 2 => [[false, false, true],
          [true, true, true],
          [false, false, false]]
  | 3 => [[true, true],
          [true, true]]
  | 4 => [[false, true, true],
          [true, true, false],
          [false, false, false]]
  | 5 => [[false, true, false],
          [true, true, true],
          [false, false, false]]
  | _ => [[true, true, false],
          [false, true, true],
          [false, false, false]]

/-- Colors `Shape::COL` of the seven shape records. -/
def shapeCOL (s : Fin 7) : Color :=
  match s.val with
  | 0 => Color.LIGHT_BLUE
  | 1 => Color.BLUE
  | 2 => Color.ORANGE
  | 3 => Color.WHITE
  | 4 => Color.GREEN
  | 5 => Color.PURPLE
  | _ => Color.RED

/-- Mask lookup `Shape::SHAPE[i][j]`; only meaningful for `i < H`, `j < W`
(the source read is undefined otherwise — `Block.existQ` guards this). -/
def shapeAt (s : Fin 7) (i j : Nat) : Bool :=
  ((shapeMask s).getD i []).getD j false

/-- Half extents `W_L = W / 2`, `W_R = W - W_L`, `H_L = H / 2`,
`H_R = H - H_L` of `BlockImpl` (integer floor division). -/
def W_L (s : Fin 7) : Nat := shapeW s / 2

/-- Right half extent `W_R = W - W_L` of `BlockImpl`. -/
def W_R (s : Fin 7) : Nat := shapeW s - W_L s

/-- Upper half extent `H_L = H / 2` of `BlockImpl`. -/
def H_L (s : Fin 7) : Nat := shapeH s / 2

/-- Lower half extent `H_R = H - H_L` of `BlockImpl`. -/
def H_R (s : Fin 7) : Nat := shapeH s - H_L s

/-- A piece: shape id, anchor `m_x`, `m_y`, rotation `m_rot`
(`ROT0/ROT90/ROT180/ROT270` as `0/1/2/3 : Fin 4`). -/
structure Block where
  shape : Fin 7
  x : Int
  y : Int
  rot : Fin 4
deriving DecidableEq, Repr

/-- `Block::setPos`. -/
def Block.setPos (b : Block) (x y : Int) : Block := { b with x := x, y := y }

/-- `Block::move(dx, dy)`: translate the anchor. -/
def Block.move (b : Block) (dx dy : Int) : Block := b.setPos (b.x + dx) (b.y + dy)

/-- `Block::rotate`: `m_rot = (m_rot + 1) % 4`; `Fin 4` addition is mod 4. -/
def Block.rotate (b : Block) : Block := { b with rot := b.rot + 1 }

/-- `Block::getColor` (`Shape::COL`). -/
def Block.color (b : Block) : Color := shapeCOL b.shape

/-- Result record for `BlockImpl::getRange`, which returns the four ints
through out-pointers `sx, sy, ex, ey`. -/
structure Range4 where
  sx : Int
  sy : Int
  ex : Int
  ey : Int
deriving DecidableEq, Repr

/-- `BlockImpl::getRange`: the inclusive bounding rectangle, anchor plus
half extents; at `ROT90`/`ROT270` the x/y extents are swapped. -/
def Block.getRange (b : Block) : Range4 :=
  let sx0 : Int := -(W_L b.shape : Int)
  let sy0 : Int := -(H_L b.shape : Int)
  let ex0 : Int := (W_R b.shape : Int) - 1
  let ey0 : Int := (H_R b.shape : Int) - 1
  if b.rot.val = 0 ∨ b.rot.val = 2 then
    ⟨b.x + sx0, b.y + sy0, b.x + ex0, b.y + ey0⟩
  else
    ⟨b.x + sy0, b.y + sx0, b.x + ey0, b.y + ex0⟩

/-- `BlockImpl::exist(x, y)` with the partiality made explicit: the local
indices `x0_idx = x - (m_x - W_L)`, `y0_idx = y - (m_y - H_L)` are fed
through the per-rotation index transform, and the mask read
`SHAPE[i][j]` is performed only when `0 ≤ i < H` and `0 ≤ j < W`;
otherwise the source read is undefined and the model returns `none`. -/
def Block.existQ (b : Block) (x y : Int) : Option Bool :=
  let x0 : Int := x - (b.x - (W_L b.shape : Int))
  let y0 : Int := y - (b.y - (H_L b.shape : Int))
  let W : Int := (shapeW b.shape : Int)
  let H : Int := (shapeH b.shape : Int)
  if b.rot.val = 0 then
    if 0 ≤ y0 ∧ y0 < H ∧ 0 ≤ x0 ∧ x0 < W then
      some (shapeAt b.shape y0.toNat x0.toNat)
    else none
  else if b.rot.val = 1 then
    if 0 ≤ x0 ∧ x0 < H ∧ 0 ≤ H - y0 - 1 ∧ H - y0 - 1 < W then
      some (shapeAt b.shape x0.toNat (H - y0 - 1).toNat)
    else none
  else if b.rot.val = 2 then
    if 0 ≤ H - y0 - 1 ∧ H - y0 - 1 < H ∧ 0 ≤ W - x0 - 1 ∧ W - x0 - 1 < W then
      some (shapeAt b.shape (H - y0 - 1).toNat (W - x0 - 1).toNat)
    else none
  else
    if 0 ≤ W - x0 - 1 ∧ W - x0 - 1 < H ∧ 0 ≤ y0 ∧ y0 < W then
      some (shapeAt b.shape (W - x0 - 1).toNat y0.toNat)
    else none

/-- Total version of `BlockImpl::exist`: all of the source's callers
(`isPuttable`, `putBlock`) query inside the bounding range, where the read
is defined — see the range/in-bounds theorems below. -/
def Block.exist (b : Block) (x y : Int) : Bool := (b.existQ x y).getD false

/-- Inclusive integer range `[a, b]` as a list, the iteration space of the
source's `for (v = a; v <= b; v++)` loops (empty when `b < a`). -/
def intRange (a b : Int) : List Int :=
  (List.range (b + 1 - a).toNat).map (fun (i : Nat) => a + (i : Int))

/-- Conversion of a C++ `int` value to `size_t` (64-bit unsigned): negative
values wrap by `2^64`.  `putBlock` compares its clamped loop bounds at this
type (`for (size_t y = sy; y <= ey; y++)` with `ey` an `int`). -/
def asU (a : Int) : Int := if a < 0 then a + 2 ^ 64 else a

/-- The occupancy grid `BlockMap`: dimensions `m_w`, `m_h` and the cells.
The source keeps one flat row-major vector with
`get(x, y) = m_blocks[y * m_w + x]`; the model keeps the same grid as the
list of its `m_h` rows of length `m_w` (row `y` is `rows.getD y []`). -/
structure BlockMap where
  w : Nat
  h : Nat
  rows : List (List Color)
deriving DecidableEq, Repr

/-- Fresh field of the `BlockMap(w, h)` constructor: `w * h` cells, all
`BLACK`. -/
def BlockMap.mk0 (w h : Nat) : BlockMap :=
  ⟨w, h, List.replicate h (List.replicate w Color.BLACK)⟩

/-- `BlockMap::get(x, y)` (in-range in every source call site). -/
def BlockMap.get (m : BlockMap) (x y : Int) : Color :=
  (m.rows.getD y.toNat []).getD x.toNat Color.BLACK

/-- `BlockMap::exist(x, y) = static_cast<bool>(get(x, y))`, i.e. the cell
is not `BLACK`. -/
def BlockMap.exist (m : BlockMap) (x y : Int) : Bool :=
  decide (m.get x y ≠ Color.BLACK)

/-- `BlockMap::isPuttable(block)`: over the block's bounding range, every
occupied cell either has `y < 0` (ignored) or must be inside the field and
on an empty cell.  The source loop early-returns `false`; the `all` over
the same iteration space is equivalent. -/
def BlockMap.isPuttable (m : BlockMap) (b : Block) : Bool :=
  let r := b.getRange
  (intRange r.sy r.ey).all fun y =>
    (intRange r.sx r.ex).all fun x =>
      !(b.exist x y) || decide (y < 0) ||
        (decide (0 ≤ x) && decide (x < (m.w : Int)) &&
         decide (y < (m.h : Int)) && !(m.exist x y))

/-- The coordinates `(x, y)` at which `BlockMap::putBlock(block)` writes,
in loop order: the bounding range clamped by `sx = max(0, sx)`,
`sy = max(0, sy)`, `ex = min(w, ex)`, `ey = min(h, ey)`, then every
occupied cell of the clamped range.  The loop counters are `size_t`, so
the upper bounds compare as unsigned values (`asU`). -/
def BlockMap.putBlockWrites (m : BlockMap) (b : Block) : List (Int × Int) :=
  let r := b.getRange
  let sx := max 0 r.sx
  let sy := max 0 r.sy
  let ex := min (m.w : Int) r.ex
  let ey := min (m.h : Int) r.ey
  (intRange sy (asU ey)).flatMap fun y =>
    (intRange sx (asU ex)).filterMap fun x =>
      if b.exist x y then some (x, y) else none

/-- `BlockMap::putBlock(block)`: write the block's color at each
`putBlockWrites` coordinate (`List.set` is a no-op on an out-of-range
index, matching that nothing lands in any grid row there). -/
def BlockMap.putBlock (m : BlockMap) (b : Block) : BlockMap :=
  { m with
    rows := (m.putBlockWrites b).foldl
      (fun rs p =>
        rs.set p.2.toNat ((rs.getD p.2.toNat []).set p.1.toNat b.color))
      m.rows }

/-- One row of `BLACK` cells, written at the top after a shift. -/
def blackRow (w : Nat) : List Color :=
  List.replicate w Color.BLACK

/-- The filled test of `eraseFilledLines`: `is_filled` stays `true` iff no
`x < w` has `get(x, y) == BLACK`. -/
def rowFilled (w : Nat) (r : List Color) : Bool :=
  (List.range w).all fun x => decide (r.getD x Color.BLACK ≠ Color.BLACK)

/-- The shift loop of `eraseFilledLines`: `for (yy = y; 1 <= yy; yy--)`
copies row `yy - 1` into row `yy`; each source row is still unmodified
when it is read, since writes go to strictly larger indices first. -/
def shiftLoop (rows : List (List Color)) : Nat → List (List Color)
  | 0 => rows
  | yy + 1 => shiftLoop (rows.set (yy + 1) (rows.getD yy [])) yy

/-- The scan loop of `eraseFilledLines` over `y = h-1, ..., 0` (the `Nat`
argument `n` means indices `n-1, ..., 0` remain): a filled row `y` bumps
the counter, shifts rows `y, ..., 1` down and clears row `0`; then the
scan moves on to `y - 1` (the source does not re-check index `y`). -/
def eraseLoop (w : Nat) : Nat → List (List Color) → Nat × List (List Color)
  | 0, rows => (0, rows)
  | n + 1, rows =>
    if rowFilled w (rows.getD n []) then
      let next := eraseLoop w n ((shiftLoop rows n).set 0 (blackRow w))
      (next.1 + 1, next.2)
    else
      eraseLoop w n rows

/-- `BlockMap::eraseFilledLines`: returns the count of erased rows and the
mutated field. -/
def BlockMap.eraseFilledLines (m : BlockMap) : Nat × BlockMap :=
  let r := eraseLoop m.w m.h m.rows
  (r.1, { m with rows := r.2 })

/-- `TryBlockAction(block, block_map, action)`: clone, apply the action to
the clone, accept it iff `isPuttable`; returns the (possibly replaced)
piece and whether the action was accepted.  The `BlockMap` parameter is a
`const` reference in the source — the function cannot mutate the field,
which the embedding reflects by not returning a map. -/
def TryBlockAction (b : Block) (m : BlockMap) (action : Block → Block) :
    Block × Bool :=
  let tmp := action b
  if m.isPuttable tmp then (tmp, true) else (b, false)

/-- The gravity-tick body of `TetrisApp::run` (the `shouldHappen` branch
followed by the draw/commit section, key input aside): try `move(0, 1)`;
set `next_block` on failure; run `eraseFilledLines` on the field; then the
draw section puts the piece on a scratch copy and, iff `next_block`, the
scratch copy becomes the field (the lock commit).  Returns the new field,
the piece, the `next_block` flag (a spawn follows next iteration), and the
erased-line count of this tick. -/
def gravityTick (m : BlockMap) (b : Block) : BlockMap × Block × Bool × Nat :=
  let t := TryBlockAction b m (fun blk => blk.move 0 1)
  let nb := !t.2
  let e := m.eraseFilledLines
  let tmp := e.2.putBlock t.1
  let m2 := if nb then tmp else e.2
  (m2, t.1, nb, e.1)

/-- The shape choice of `RandomBlockGenerator::operator()`: the 32-bit
`mt19937` output reduced mod 7 (`const int idx = m_mt() % 7`). -/
def genIdx (u : Nat) : Nat := u % 7

/-! ### Concrete instances used by the closed theorems below -/

/-- A 2×3 field whose two adjacent bottom rows are completely filled and
whose top row has an empty cell. -/
def fieldTwoAdj : BlockMap :=
  ⟨2, 3, [[Color.BLACK, Color.RED],
          [Color.RED, Color.RED],
          [Color.RED, Color.RED]]⟩

/-- A 2×3 field with exactly one completely filled row (row 1); rows 0 and
2 each have an empty cell. -/
def fieldOneRow : BlockMap :=
  ⟨2, 3, [[Color.BLACK, Color.RED],
          [Color.RED, Color.RED],
          [Color.RED, Color.BLACK]]⟩

/-- A 2×2 field whose bottom row is filled except its right cell. -/
def fieldC2 : BlockMap :=
  ⟨2, 2, [[Color.BLACK, Color.BLACK],
          [Color.RED, Color.BLACK]]⟩

/-- The O piece (shape 3) anchored at `(1, 0)`: placeable on `fieldC2`,
blocked from moving down, and completing row 0 when committed. -/
def blockC2 : Block := ⟨3, 1, 0, 0⟩

/-- An empty 2×2 field. -/
def field22 : BlockMap := BlockMap.mk0 2 2

/-- The O piece anchored at `(2, 1)`: its bounding range sticks one cell
past the right and bottom edges of a 2×2 field. -/
def blockOOB : Block := ⟨3, 2, 1, 0⟩

/-- The O piece anchored at `(1, 1)`: fully inside a 2×2 field. -/
def blockIn : Block := ⟨3, 1, 1, 0⟩

/-- The I piece (shape 0) at the origin, rotation 0. -/
def pieceI : Block := ⟨0, 0, 0, 0⟩

/-! ### Basic lemmas about the iteration helpers -/

/-- Membership in the inclusive loop range. -/
lemma mem_intRange {a b x : Int} : x ∈ intRange a b ↔ a ≤ x ∧ x ≤ b := by
  unfold intRange
  simp only [List.mem_map, List.mem_range]
  constructor
  · rintro ⟨i, hi, rfl⟩
    omega
  · intro h
    exact ⟨(x - a).toNat, by omega, by omega⟩

set_option maxHeartbeats 1600000 in
/-- The guarded mask read of `Block.existQ` is defined everywhere on the
rectangle returned by `getRange` (all seven shapes have `W = H`, so the
mask window coincides with the rectangle at every rotation). -/
lemma existQ_isSome_of_mem (b : Block) (x y : Int)
    (h1 : b.getRange.sx ≤ x) (h2 : x ≤ b.getRange.ex)
    (h3 : b.getRange.sy ≤ y) (h4 : y ≤ b.getRange.ey) :
    (b.existQ x y).isSome = true := by
  obtain ⟨s, px, py, r⟩ := b
  fin_cases s <;> fin_cases r <;>
    simp only [Block.existQ, Block.getRange, shapeW, shapeH, W_L, W_R,
      H_L, H_R] at h1 h2 h3 h4 ⊢ <;>
    norm_num at h1 h2 h3 h4 ⊢ <;>
    omega

set_option maxHeartbeats 1600000 in
/-- Outside the `getRange` rectangle the guarded mask read is undefined:
`existQ` returns `none` there, so the totalised `exist` is `false`. -/
lemma existQ_eq_none_of_not_mem (b : Block) (x y : Int)
    (h : ¬ (b.getRange.sx ≤ x ∧ x ≤ b.getRange.ex ∧
            b.getRange.sy ≤ y ∧ y ≤ b.getRange.ey)) :
    b.existQ x y = none := by
  obtain ⟨s, px, py, r⟩ := b
  fin_cases s <;> fin_cases r <;>
    simp only [Block.existQ, Block.getRange, shapeW, shapeH, W_L, W_R,
      H_L, H_R] at h ⊢ <;>
    norm_num at h ⊢ <;>
    (intros; exfalso; omega)

/-- Soundness of the bounding rectangle: every cell at which `exist` holds
lies inside the `getRange` rectangle (outside it the guarded read yields
`none` and the totalisation is `false`). -/
lemma mem_range_of_exist (b : Block) (x y : Int) (h : b.exist x y = true) :
    b.getRange.sx ≤ x ∧ x ≤ b.getRange.ex ∧
      b.getRange.sy ≤ y ∧ y ≤ b.getRange.ey := by
  by_contra hc
  rw [Block.exist, existQ_eq_none_of_not_mem b x y hc] at h
  simp at h

/-- Loop/characterisation lemma for `BlockMap::isPuttable`: it returns
`true` iff every occupied cell of the bounding range is either above the
field (`y < 0`) or inside the field on an empty cell. -/
lemma isPuttable_iff (m : BlockMap) (b : Block) :
    m.isPuttable b = true ↔
      ∀ x y : Int,
        b.getRange.sx ≤ x → x ≤ b.getRange.ex →
        b.getRange.sy ≤ y → y ≤ b.getRange.ey →
        b.exist x y = true →
        (y < 0 ∨ (0 ≤ x ∧ x < (m.w : Int) ∧ y < (m.h : Int) ∧
                  m.exist x y = false)) := by
  unfold BlockMap.isPuttable
  simp only [List.all_eq_true, mem_intRange, and_imp, Bool.or_eq_true,
    Bool.and_eq_true, Bool.not_eq_true', decide_eq_true_eq]
  constructor
  · intro h x y hx1 hx2 hy1 hy2 hex
    have hh := h y hy1 hy2 x hx1 hx2
    rcases hh with (hfalse | hlt) | hok
    · exact absurd hex (by simp [hfalse])
    · exact Or.inl hlt
    · exact Or.inr ⟨hok.1.1.1, hok.1.1.2, hok.1.2, hok.2⟩
  · intro h y hy1 hy2 x hx1 hx2
    by_cases hex : b.exist x y = true
    · rcases h x y hx1 hx2 hy1 hy2 hex with hlt | hok
      · exact Or.inl (Or.inr hlt)
      · exact Or.inr ⟨⟨⟨hok.1, hok.2.1⟩, hok.2.2.1⟩, hok.2.2.2⟩
    · exact Or.inl (Or.inl (by simpa using hex))

/-! ### Lemmas about the `eraseFilledLines` loops -/

/-- `getD` after `set` at the written index. -/
lemma getD_set_self {α : Type} (l : List α) (i : Nat) (a d : α)
    (h : i < l.length) : (l.set i a).getD i d = a := by
  rw [List.getD_eq_getElem?_getD, List.getElem?_set]
  simp [h]

/-- `getD` after `set` at another index. -/
lemma getD_set_ne {α : Type} (l : List α) (i j : Nat) (a d : α)
    (h : i ≠ j) : (l.set i a).getD j d = l.getD j d := by
  rw [List.getD_eq_getElem?_getD, List.getElem?_set, if_neg h,
    List.getD_eq_getElem?_getD]

/-- The shift loop preserves the number of rows. -/
lemma shiftLoop_length (y : Nat) :
    ∀ rows : List (List Color), (shiftLoop rows y).length = rows.length := by
  induction y with
  | zero => intro rows; rfl
  | succ n ih =>
    intro rows
    rw [shiftLoop, ih, List.length_set]

/-- Row-level effect of the shift loop: rows `1..y` receive the row above,
every other row is untouched. -/
lemma shiftLoop_getD (y : Nat) :
    ∀ rows : List (List Color), y < rows.length → ∀ j : Nat,
      (shiftLoop rows y).getD j [] =
        if 1 ≤ j ∧ j ≤ y then rows.getD (j - 1) [] else rows.getD j [] := by
  induction y with
  | zero =>
    intro rows _ j
    rw [shiftLoop, if_neg (by omega)]
  | succ n ih =>
    intro rows hy j
    rw [shiftLoop]
    have hlen : n < (rows.set (n + 1) (rows.getD n [])).length := by
      rw [List.length_set]; omega
    rw [ih _ hlen j]
    by_cases hj1 : 1 ≤ j ∧ j ≤ n
    · rw [if_pos hj1, if_pos (by omega), getD_set_ne _ _ _ _ _ (by omega)]
    · rw [if_neg hj1]
      by_cases hj2 : j = n + 1
      · subst hj2
        rw [if_pos (by omega), getD_set_self _ _ _ _ (by omega)]
        norm_num
      · rw [if_neg (by omega), getD_set_ne _ _ _ _ _ (by omega)]

/-- The scan loop preserves the number of rows. -/
lemma eraseLoop_length (w : Nat) (n : Nat) :
    ∀ rows : List (List Color), (eraseLoop w n rows).2.length = rows.length := by
  induction n with
  | zero => intro rows; rfl
  | succ k ih =>
    intro rows
    rw [eraseLoop]
    by_cases hf : rowFilled w (rows.getD k []) = true
    · rw [if_pos hf]
      have := ih ((shiftLoop rows k).set 0 (blackRow w))
      rw [List.length_set, shiftLoop_length] at this
      exact this
    · rw [if_neg (by simpa using hf)]
      exact ih rows

/-- Scanning a stretch of unfilled rows does nothing: the scan from index
`n - 1` down is the scan from index `b - 1` down when no index in
`[b, n)` holds a filled row. -/
lemma eraseLoop_skip (w : Nat) (n b : Nat) (hb : b ≤ n) :
    ∀ rows : List (List Color),
      (∀ j, b ≤ j → j < n → rowFilled w (rows.getD j []) = false) →
      eraseLoop w n rows = eraseLoop w b rows := by
  induction n with
  | zero =>
    intro rows _
    have : b = 0 := by omega
    rw [this]
  | succ k ih =>
    intro rows hnf
    by_cases hbk : b = k + 1
    · rw [hbk]
    · have hb2 : b ≤ k := by omega
      have hk := hnf k hb2 (by omega)
      rw [eraseLoop, if_neg (by rw [hk]; exact Bool.false_ne_true),
        ih hb2 rows (fun j h1 h2 => hnf j h1 (by omega))]

/-- An unfilled row forces a positive width (over width 0 every row is
vacuously filled). -/
lemma pos_of_rowFilled_false {w : Nat} {r : List Color}
    (h : rowFilled w r = false) : 0 < w := by
  by_contra hw
  have : w = 0 := by omega
  subst this
  simp [rowFilled] at h

/-- A row of `BLACK` cells is not filled (at positive width). -/
lemma rowFilled_blackRow {w : Nat} (h : 0 < w) :
    rowFilled w (blackRow w) = false := by
  unfold rowFilled blackRow
  rw [List.all_eq_false]
  refine ⟨0, by simpa using h, ?_⟩
  simp [List.getD_eq_getElem?_getD, List.getElem?_replicate, h]

/-- Core lemma for a single filled row: if row `k` is the only filled row,
the scan erases exactly it — one shift at `k` plus clearing the top row —
and counts 1. -/
lemma eraseLoop_single (w h k : Nat) (rows : List (List Color))
    (hlen : rows.length = h) (hk : k < h)
    (hfill : rowFilled w (rows.getD k []) = true)
    (hother : ∀ j, j < h → j ≠ k → rowFilled w (rows.getD j []) = false) :
    eraseLoop w h rows = (1, (shiftLoop rows k).set 0 (blackRow w)) := by
  have hskip1 : eraseLoop w h rows = eraseLoop w (k + 1) rows :=
    eraseLoop_skip w h (k + 1) (by omega) rows
      (fun j h1 h2 => hother j (by omega) (by omega))
  have hstep : eraseLoop w (k + 1) rows =
      ((eraseLoop w k ((shiftLoop rows k).set 0 (blackRow w))).1 + 1,
       (eraseLoop w k ((shiftLoop rows k).set 0 (blackRow w))).2) := by
    rw [eraseLoop, if_pos hfill]
  have hrows1 : ∀ j, j < k →
      rowFilled w (((shiftLoop rows k).set 0 (blackRow w)).getD j []) = false := by
    intro j hj
    have hwpos : 0 < w := by
      rcases Nat.eq_zero_or_pos k with hk0 | hkpos
      · omega
      · exact pos_of_rowFilled_false (hother 0 (by omega) (by omega))
    by_cases hj0 : j = 0
    · subst hj0
      rw [getD_set_self _ _ _ _ (by rw [shiftLoop_length]; omega)]
      exact rowFilled_blackRow hwpos
    · rw [getD_set_ne _ _ _ _ _ (by omega),
        shiftLoop_getD k rows (by omega) j, if_pos (by omega)]
      exact hother (j - 1) (by omega) (by omega)
  have hskip2 : eraseLoop w k ((shiftLoop rows k).set 0 (blackRow w)) =
      (0, (shiftLoop rows k).set 0 (blackRow w)) := by
    rw [eraseLoop_skip w k 0 (by omega) _ (fun j h1 h2 => hrows1 j h2)]
    rfl
  rw [hskip1, hstep, hskip2]

/-- Preimage count of the shape choice `genIdx` on the 32-bit generator
range: residue `r < 7` has `(2^32 + 6 - r) / 7` preimages in `[0, 2^32)`. -/
lemma card_genIdx (r : Nat) (hr : r < 7) :
    ((Finset.range (2 ^ 32)).filter (fun u => genIdx u = r)).card =
      (2 ^ 32 + 6 - r) / 7 := by
  rw [show (2 ^ 32 + 6 - r) / 7 = (Finset.range ((2 ^ 32 + 6 - r) / 7)).card from
    (Finset.card_range _).symm]
  refine Finset.card_bij' (fun u _ => u / 7) (fun q _ => 7 * q + r) ?_ ?_ ?_ ?_ <;>
    (intro a ha
     simp only [Finset.mem_filter, Finset.mem_range, genIdx] at ha ⊢
     omega)

/-- Membership in the `putBlock` write list: exactly the occupied cells of
the clamped range (upper bounds compared as unsigned values). -/
lemma mem_putBlockWrites (m : BlockMap) (b : Block) (x y : Int) :
    (x, y) ∈ m.putBlockWrites b ↔
      (max 0 b.getRange.sy ≤ y ∧ y ≤ asU (min (m.h : Int) b.getRange.ey) ∧
       max 0 b.getRange.sx ≤ x ∧ x ≤ asU (min (m.w : Int) b.getRange.ex) ∧
       b.exist x y = true) := by
  unfold BlockMap.putBlockWrites
  simp only [List.mem_flatMap, List.mem_filterMap, mem_intRange]
  constructor
  · rintro ⟨v, ⟨hy1, hy2⟩, u, ⟨hx1, hx2⟩, hif⟩
    by_cases hex : b.exist u v = true
    · rw [if_pos hex] at hif
      obtain ⟨rfl, rfl⟩ : u = x ∧ v = y := by simpa using hif
      exact ⟨hy1, hy2, hx1, hx2, hex⟩
    · rw [if_neg hex] at hif
      cases hif
  · rintro ⟨hy1, hy2, hx1, hx2, hex⟩
    exact ⟨y, ⟨hy1, hy2⟩, x, ⟨hx1, hx2⟩, by rw [if_pos hex]⟩

/-! ### Claim theorems -/

/-- C3: `isPuttable` returns `true` iff every cell in the piece's bounding
range at which the piece's `exist` is true either has `y < 0` (ignored,
spawn overhang) or satisfies `0 ≤ x < width`, `y < height` and the field
cell at `(x, y)` is empty; any occupied cell with `y ≥ 0` that is out of
bounds in `x`, at or below the bottom, or on a non-empty cell makes it
return `false`. -/
theorem C3_isPuttable_characterisation (m : BlockMap) (b : Block) :
    m.isPuttable b = true ↔
      ∀ x y : Int,
        b.getRange.sx ≤ x → x ≤ b.getRange.ex →
        b.getRange.sy ≤ y → y ≤ b.getRange.ey →
        b.exist x y = true →
        (y < 0 ∨ (0 ≤ x ∧ x < (m.w : Int) ∧ y < (m.h : Int) ∧
                  m.exist x y = false)) :=
  isPuttable_iff m b

/-- C5 (counterexample): for the I piece at the origin with rotation 0,
`getRange` returns the rectangle `[-2, 1] × [-2, 1]`, but no cell of its
top edge row `sy = -2` is occupied — the rectangle is not minimal, so the
claim that every edge of the rectangle contains an occupied cell fails. -/
theorem C5_counterexample :
    pieceI.getRange = ⟨-2, -2, 1, 1⟩ ∧
    ((intRange (-2) 1).all fun x => !(pieceI.exist x (-2))) = true := by
  decide

/-- C5 (amended): the rectangle returned by `getRange` contains every
occupied cell (soundness); it is however not minimal — see the
counterexample for an edge row with no occupied cell. -/
theorem C5_range_bounds_occupied (b : Block) (x y : Int)
    (h : b.exist x y = true) :
    b.getRange.sx ≤ x ∧ x ≤ b.getRange.ex ∧
      b.getRange.sy ≤ y ∧ y ≤ b.getRange.ey :=
  mem_range_of_exist b x y h

/-- Witness for C5 at the I piece: cell `(-1, -1)` is occupied, and it
lies inside the returned rectangle. -/
theorem C5_range_bounds_occupied_witness :
    pieceI.exist (-1) (-1) = true ∧
      (pieceI.getRange.sx ≤ -1 ∧ -1 ≤ pieceI.getRange.ex ∧
       pieceI.getRange.sy ≤ -1 ∧ -1 ≤ pieceI.getRange.ey) :=
  ⟨by decide, C5_range_bounds_occupied pieceI (-1) (-1) (by decide)⟩

/-- C7: `TryBlockAction` applies the transform to a clone; if the clone is
placeable the current piece becomes the transformed piece and the call
returns `true`, otherwise the current piece is returned unchanged with
`false`; the field is taken by `const` reference and cannot be mutated
(the embedding returns no field). -/
theorem C7_try_block_action (b : Block) (m : BlockMap) (action : Block → Block) :
    TryBlockAction b m action =
      (if m.isPuttable (action b) = true then action b else b,
       m.isPuttable (action b)) := by
  unfold TryBlockAction
  by_cases h : m.isPuttable (action b) = true
  · rw [if_pos h, if_pos h, h]
  · have h2 : m.isPuttable (action b) = false := by
      rwa [Bool.not_eq_true] at h
    rw [if_neg h, if_neg h, h2]

/-- C8: four successive rotations are the identity: the rotation state
returns to the original value and the occupancy `exist` agrees with the
original at every cell. -/
theorem C8_rotate_four_identity (b : Block) :
    b.rotate.rotate.rotate.rotate = b ∧
      ∀ x y : Int, b.rotate.rotate.rotate.rotate.exist x y = b.exist x y := by
  obtain ⟨s, px, py, r⟩ := b
  have h4 : (Block.mk s px py r).rotate.rotate.rotate.rotate =
      Block.mk s px py r := by
    simp only [Block.rotate]
    congr 1
    fin_cases r <;> rfl
  exact ⟨h4, fun x y => by rw [h4]⟩

/-- C10: every occupancy query issued inside the `getRange` rectangle (as
`isPuttable` and `putBlock` issue them) reads the shape mask in bounds:
the guarded read `existQ` is defined there.  This rests on all seven
shapes having `W = H`, so the mask window coincides with the rectangle at
every rotation. -/
theorem C10_queries_in_range_read_mask_in_bounds (b : Block) (x y : Int)
    (h1 : b.getRange.sx ≤ x) (h2 : x ≤ b.getRange.ex)
    (h3 : b.getRange.sy ≤ y) (h4 : y ≤ b.getRange.ey) :
    (b.existQ x y).isSome = true :=
  existQ_isSome_of_mem b x y h1 h2 h3 h4

/-- Witness for C10 at the I piece and the cell `(0, 0)` of its
rectangle. -/
theorem C10_queries_witness :
    (pieceI.getRange.sx ≤ 0 ∧ 0 ≤ pieceI.getRange.ex ∧
     pieceI.getRange.sy ≤ 0 ∧ 0 ≤ pieceI.getRange.ey) ∧
    (pieceI.existQ 0 0).isSome = true :=
  ⟨by decide,
   C10_queries_in_range_read_mask_in_bounds pieceI 0 0
     (by decide) (by decide) (by decide) (by decide)⟩

/-- C6: on a field whose row `k` is the only completely filled row (every
other row has an empty cell), `eraseFilledLines` returns 1, makes the top
row all empty, moves each row above `k` down by one, and leaves every row
below `k` unchanged. -/
theorem C6_single_filled_row_clear (m : BlockMap) (k : Nat)
    (hlen : m.rows.length = m.h) (hk : k < m.h)
    (hfill : rowFilled m.w (m.rows.getD k []) = true)
    (hother : ∀ j, j < m.h → j ≠ k → rowFilled m.w (m.rows.getD j []) = false) :
    m.eraseFilledLines.1 = 1 ∧
    m.eraseFilledLines.2.rows.getD 0 [] = blackRow m.w ∧
    (∀ j, 1 ≤ j → j ≤ k →
      m.eraseFilledLines.2.rows.getD j [] = m.rows.getD (j - 1) []) ∧
    (∀ j, k < j →
      m.eraseFilledLines.2.rows.getD j [] = m.rows.getD j []) := by
  have hcore := eraseLoop_single m.w m.h k m.rows hlen hk hfill hother
  have hfl : m.eraseFilledLines =
      (1, { m with rows := (shiftLoop m.rows k).set 0 (blackRow m.w) }) := by
    unfold BlockMap.eraseFilledLines
    rw [hcore]
  rw [hfl]
  refine ⟨rfl, ?_, ?_, ?_⟩
  · exact getD_set_self _ _ _ _ (by rw [shiftLoop_length]; omega)
  · intro j hj1 hjk
    rw [getD_set_ne _ _ _ _ _ (by omega),
      shiftLoop_getD k m.rows (by omega) j, if_pos (by omega)]
  · intro j hjk
    rw [getD_set_ne _ _ _ _ _ (by omega),
      shiftLoop_getD k m.rows (by omega) j, if_neg (by omega)]

/-- Witness for C6 on the 2×3 field whose only filled row is row 1. -/
theorem C6_single_filled_row_clear_witness :
    (fieldOneRow.rows.length = fieldOneRow.h ∧ 1 < fieldOneRow.h ∧
     rowFilled fieldOneRow.w (fieldOneRow.rows.getD 1 []) = true ∧
     (∀ j, j < fieldOneRow.h → j ≠ 1 →
       rowFilled fieldOneRow.w (fieldOneRow.rows.getD j []) = false)) ∧
    (fieldOneRow.eraseFilledLines.1 = 1 ∧
     fieldOneRow.eraseFilledLines.2.rows.getD 0 [] = blackRow fieldOneRow.w ∧
     (∀ j, 1 ≤ j → j ≤ 1 →
       fieldOneRow.eraseFilledLines.2.rows.getD j [] =
         fieldOneRow.rows.getD (j - 1) []) ∧
     (∀ j, 1 < j →
       fieldOneRow.eraseFilledLines.2.rows.getD j [] =
         fieldOneRow.rows.getD j [])) :=
  ⟨⟨by decide, by decide, by decide, by decide⟩,
   C6_single_filled_row_clear fieldOneRow 1
     (by decide) (by decide) (by decide) (by decide)⟩

/-- C1: on the 2×3 field whose two adjacent bottom rows (rows 1 and 2) are
the filled rows and whose top row has an empty cell, a single call to
`eraseFilledLines` erases only the lower filled row and returns 1, not 2:
after clearing row 2 the shift slides filled row 1 down into index 2, the
scan moves up to index 1 without re-checking index 2, and the field keeps
a completely filled bottom row.  This contradicts the claimed (and
intended) behaviour of removing both rows and returning 2. -/
theorem C1_adjacent_rows_single_call :
    (rowFilled fieldTwoAdj.w (fieldTwoAdj.rows.getD 1 []) = true ∧
     rowFilled fieldTwoAdj.w (fieldTwoAdj.rows.getD 2 []) = true ∧
     rowFilled fieldTwoAdj.w (fieldTwoAdj.rows.getD 0 []) = false) ∧
    fieldTwoAdj.eraseFilledLines =
      (1, ⟨2, 3, [[Color.BLACK, Color.BLACK],
                  [Color.BLACK, Color.RED],
                  [Color.RED, Color.RED]]⟩) ∧
    rowFilled fieldTwoAdj.w (fieldTwoAdj.eraseFilledLines.2.rows.getD 2 []) =
      true ∧
    fieldTwoAdj.eraseFilledLines.1 ≠ 2 := by
  decide

/-- C2 (counterexample): on `fieldC2` with the O piece `blockC2`, the
gravity tick locks the piece (`move(0, 1)` is not placeable), but the tick
runs `eraseFilledLines` on the field before the commit: the resulting
field differs from commit-then-clear and still contains the row completed
by the lock when the next piece is about to spawn. -/
theorem C2_counterexample :
    (gravityTick fieldC2 blockC2).2.2.1 = true ∧
    (gravityTick fieldC2 blockC2).1 ≠
      ((fieldC2.putBlock blockC2).eraseFilledLines).2 ∧
    rowFilled fieldC2.w
      ((gravityTick fieldC2 blockC2).1.rows.getD 0 []) = true := by
  decide

/-- C2 (amended): on a gravity tick whose `move(0, 1)` attempt is not
placeable, the controller runs `eraseFilledLines` on the pre-commit field
and only then commits the piece (via the scratch copy of the draw
section): the field handed to the next spawn is
`putBlock (eraseFilledLines field) piece`, so rows completed by the lock
itself stay in the field until the next tick. -/
theorem C2_lock_tick_erase_then_commit (m : BlockMap) (b : Block)
    (h : m.isPuttable (b.move 0 1) = false) :
    gravityTick m b =
      (m.eraseFilledLines.2.putBlock b, b, true, m.eraseFilledLines.1) := by
  unfold gravityTick TryBlockAction
  rw [if_neg (by rw [h]; exact Bool.false_ne_true)]
  simp

/-- Witness for the amended C2 at the concrete lock tick. -/
theorem C2_lock_tick_erase_then_commit_witness :
    fieldC2.isPuttable (blockC2.move 0 1) = false ∧
    gravityTick fieldC2 blockC2 =
      (fieldC2.eraseFilledLines.2.putBlock blockC2, blockC2, true,
       fieldC2.eraseFilledLines.1) :=
  ⟨by decide, C2_lock_tick_erase_then_commit fieldC2 blockC2 (by decide)⟩

/-- C4 (counterexample): `putBlock` clamps the upper bounds of the
bounding range to `width`/`height` inclusively (`ex = min(w, ex)`,
`ey = min(h, ey)`) and loops with `x <= ex`, `y <= ey`, so for the O piece
anchored at `(2, 1)` on a 2×2 field it writes at `(2, 1)` — a grid index
with `x = width`, outside `0 ≤ x < width`.  (In the source's flat
row-major vector, index `y * w + x` with `x = w` aliases the next row or
runs past the buffer.) -/
theorem C4_counterexample :
    ((2 : Int), (1 : Int)) ∈ field22.putBlockWrites blockOOB ∧
    ¬ ((2 : Int) < (field22.w : Int)) := by
  decide

/-- C4 (amended): the clamp bounds writes by `0 ≤ x ≤ width` and
`0 ≤ y ≤ height` rather than excluding the field edge; when the piece is
placeable (`isPuttable`) and the bounding range is not entirely left of or
above the field (`0 ≤ ex`, `0 ≤ ey` — otherwise the unsigned loop bounds
of the source traverse huge coordinates), every written cell does satisfy
`0 ≤ x < width` and `0 ≤ y < height`. -/
theorem C4_writes_in_field_of_placeable (m : BlockMap) (b : Block)
    (x y : Int) (hp : m.isPuttable b = true)
    (hex : 0 ≤ b.getRange.ex) (hey : 0 ≤ b.getRange.ey)
    (hw : (x, y) ∈ m.putBlockWrites b) :
    0 ≤ x ∧ x < (m.w : Int) ∧ 0 ≤ y ∧ y < (m.h : Int) := by
  obtain ⟨hy1, hy2, hx1, hx2, hexist⟩ := (mem_putBlockWrites m b x y).1 hw
  have hey0 : (0 : Int) ≤ min (m.h : Int) b.getRange.ey :=
    le_min (Int.natCast_nonneg _) hey
  have hex0 : (0 : Int) ≤ min (m.w : Int) b.getRange.ex :=
    le_min (Int.natCast_nonneg _) hex
  rw [show asU (min (m.h : Int) b.getRange.ey) =
        min (m.h : Int) b.getRange.ey from by
      unfold asU; rw [if_neg (not_lt.mpr hey0)]] at hy2
  rw [show asU (min (m.w : Int) b.getRange.ex) =
        min (m.w : Int) b.getRange.ex from by
      unfold asU; rw [if_neg (not_lt.mpr hex0)]] at hx2
  have hyr : y ≤ b.getRange.ey := le_trans hy2 (min_le_right _ _)
  have hxr : x ≤ b.getRange.ex := le_trans hx2 (min_le_right _ _)
  have hy0 : (0 : Int) ≤ y := le_trans (le_max_left _ _) hy1
  have hx0 : (0 : Int) ≤ x := le_trans (le_max_left _ _) hx1
  have hys : b.getRange.sy ≤ y := le_trans (le_max_right _ _) hy1
  have hxs : b.getRange.sx ≤ x := le_trans (le_max_right _ _) hx1
  rcases (isPuttable_iff m b).1 hp x y hxs hxr hys hyr hexist with hneg | hok
  · omega
  · exact ⟨hx0, hok.2.1, hy0, hok.2.2.1⟩

/-- Witness for the amended C4: the O piece at `(1, 1)` is placeable on
the empty 2×2 field, its range satisfies the side conditions, `(1, 1)` is
written, and the written cell is strictly inside the field. -/
theorem C4_writes_in_field_witness :
    (field22.isPuttable blockIn = true ∧
     0 ≤ blockIn.getRange.ex ∧ 0 ≤ blockIn.getRange.ey ∧
     ((1 : Int), (1 : Int)) ∈ field22.putBlockWrites blockIn) ∧
    (0 ≤ (1 : Int) ∧ (1 : Int) < (field22.w : Int) ∧
     0 ≤ (1 : Int) ∧ (1 : Int) < (field22.h : Int)) :=
  ⟨⟨by decide, by decide, by decide, by decide⟩,
   C4_writes_in_field_of_placeable field22 blockIn 1 1
     (by decide) (by decide) (by decide) (by decide)⟩

/-- C9 (counterexample): the shape index is `u % 7` on a 32-bit uniform
output, and `2^32 = 7 * 613566756 + 4`, so the residues do not all have
the same number of preimages in `[0, 2^32)`: residue 0 has 613566757,
residue 6 has 613566756. -/
theorem C9_counterexample :
    ((Finset.range (2 ^ 32)).filter (fun u => genIdx u = 0)).card =
      613566757 ∧
    ((Finset.range (2 ^ 32)).filter (fun u => genIdx u = 6)).card =
      613566756 ∧
    ((Finset.range (2 ^ 32)).filter (fun u => genIdx u = 0)).card ≠
      ((Finset.range (2 ^ 32)).filter (fun u => genIdx u = 6)).card := by
  rw [card_genIdx 0 (by omega), card_genIdx 6 (by omega)]
  refine ⟨by decide, by decide, by decide⟩

/-- C9 (amended): the shape choice is near-uniform with bias one: residue
`r < 7` has exactly `(2^32 + 6 - r) / 7` preimages in `[0, 2^32)` — being
613566757 for residues 0–3 and 613566756 for residues 4–6 — rather than
an equal count for all seven. -/
theorem C9_mod7_preimage_count (r : Nat) (h : r < 7) :
    ((Finset.range (2 ^ 32)).filter (fun u => genIdx u = r)).card =
      (2 ^ 32 + 6 - r) / 7 :=
  card_genIdx r h

/-- Witness for the amended C9 at residue 3. -/
theorem C9_mod7_preimage_count_witness :
    3 < 7 ∧
    ((Finset.range (2 ^ 32)).filter (fun u => genIdx u = 3)).card =
      (2 ^ 32 + 6 - 3) / 7 :=
  ⟨by omega, C9_mod7_preimage_count 3 (by omega)⟩
